import Mathlib

/-!
# AD8495 thermocouple amplifier driver: conversion and calibration model

A shallow embedding of `src/src/AD8495-SOLDERED.cpp` (class `AD8495`).

Numeric conventions of the embedding:

* `float` and `double` values are exact rationals (`ℚ`); rounding is not modelled.
  The theorems therefore state equations and non-strict bounds, which the
  compiled code meets up to rounding in the last place. They state no strict
  order between two readings and no converse of an exact equality of a reading,
  because `float` rounding can merge distinct exact values.
* A division whose divisor is a run-time value (`_resolution`, `samples`,
  `_deg_per_mv`) is `fdiv`, which yields `none` when the divisor is zero, where
  the C++ code produces an infinity or a NaN. `none` then propagates through
  the arithmetic that follows, as a non-finite value does in the source.
* The `uint32_t` accumulator of `readVoltage` is an integer reduced modulo `2^32`
  after every addition.
* The Arduino core (`analogRead`, `analogReadResolution`) is not part of the
  repository; it is represented by the explicit state `Board`.
-/

namespace AD8495

/-- Division of floating-point values by a run-time divisor: undefined (`none`)
when the divisor is zero. -/
def fdiv (x y : ℚ) : Option ℚ :=
  if y = 0 then none else some (x / y)

/-- State of the analog front end as seen through the Arduino core.
`input pin k` is the value the `k`-th call of `analogRead(pin)` delivers,
`reads pin` counts the calls made so far on `pin`, and `adcBits` is the last
width requested through `analogReadResolution`. -/
structure Board where
  input : Nat → Nat → Int
  reads : Nat → Nat
  adcBits : Option Nat

/-- Arduino `analogRead(pin)`: deliver the next sample of `pin` and advance its
read counter. -/
def analogRead (pin : Nat) (b : Board) : Int × Board :=
  (b.input pin (b.reads pin),
   { b with reads := fun p => if p = pin then b.reads p + 1 else b.reads p })

/-- Arduino `analogReadResolution(bits)`: record the requested sampling width. -/
def analogReadResolution (bits : Nat) (b : Board) : Board :=
  { b with adcBits := some bits }

end AD8495

/-- Private data members of `class AD8495` (`AD8495-SOLDERED.hpp`). `_lsb` is
`none` when the quotient `_vref / _resolution` computed at construction is
undefined. -/
structure AD8495 where
  _pin : Nat
  _resolution : ℚ
  _vref : ℚ
  _voltage_offset_constant : ℚ
  _lsb : Option ℚ
  _offset : ℚ
  _deg_per_mv : ℚ

namespace AD8495

/-- Constructor `AD8495::AD8495(pin, resolution_bits, reference_voltage)`.
`avr` tells whether `__AVR__` is defined: the call of `analogReadResolution` is
compiled only when it is not. -/
def ctor (avr : Bool) (pin resolution_bits : Nat) (reference_voltage : ℚ) (b : Board) :
    AD8495 × Board :=
  let _resolution : ℚ := (2 : ℚ) ^ resolution_bits - 1
  let _vref : ℚ := reference_voltage
  ({ _pin := pin
     _resolution := _resolution
     _vref := _vref
     _voltage_offset_constant := 2.5
     _lsb := fdiv _vref _resolution
     _offset := 0.0
     _deg_per_mv := 1.0 / 0.005 },
   if avr then b else analogReadResolution resolution_bits b)

/-- Method `AD8495::setTemperatureOffset`. -/
def setTemperatureOffset (s : AD8495) (offset : ℚ) : AD8495 :=
  { s with _offset := offset }

/-- Method `AD8495::getTemperatureOffset`. -/
def getTemperatureOffset (s : AD8495) : ℚ :=
  s._offset

/-- Method `AD8495::getPrecision`. -/
def getPrecision (s : AD8495) : Option ℚ :=
  s._lsb

/-- The loop of `AD8495::readVoltage`: `remaining` more iterations of
`total += analogRead(_pin)` on the `uint32_t` accumulator `total`. -/
def readVoltageLoop (pin : Nat) : Nat → Int → Board → Int × Board
  | 0, total, b => (total, b)
  | remaining + 1, total, b =>
    let r := analogRead pin b
    readVoltageLoop pin remaining ((total + r.1) % 4294967296) r.2

/-- Method `AD8495::readVoltage(samples)`. -/
def readVoltage (s : AD8495) (samples : Nat) (b : Board) : Option ℚ × Board :=
  let r := readVoltageLoop s._pin samples 0 b
  let avg_raw := fdiv (r.1 : ℚ) (samples : ℚ)
  (avg_raw.bind fun a => s._lsb.map fun lsb => a * lsb, r.2)

/-- Method `AD8495::getTemperatureC(samples)`. -/
def getTemperatureC (s : AD8495) (samples : Nat) (b : Board) : Option ℚ × Board :=
  let r := readVoltage s samples b
  let temp_c := r.1.map fun voltage => (voltage - s._voltage_offset_constant) / 0.005
  (temp_c.map fun t => t + s._offset, r.2)

/-- Method `AD8495::getTemperatureF(samples)`. -/
def getTemperatureF (s : AD8495) (samples : Nat) (b : Board) : Option ℚ × Board :=
  let r := getTemperatureC s samples b
  (r.1.map fun c => c * 1.8 + 32.0, r.2)

/-- Method `AD8495::getSetpointVoltage(temperature_c)`. -/
def getSetpointVoltage (s : AD8495) (temperature_c : ℚ) : Option ℚ :=
  fdiv temperature_c s._deg_per_mv

/-- Method `AD8495::setVoltageOffset`. -/
def setVoltageOffset (s : AD8495) (newOffset : ℚ) : AD8495 :=
  { s with _voltage_offset_constant := newOffset }

/-- The raw samples that the next `n` calls of `analogRead(pin)` return, in
order. -/
def nextSamples (pin : Nat) : Nat → Board → List Int
  | 0, _ => []
  | n + 1, b => (analogRead pin b).1 :: nextSamples pin n (analogRead pin b).2

/-- Channel states reachable from a construction by calibration calls. The
reading methods do not modify the object, so they add no further states. -/
inductive Reachable : AD8495 → Prop
  | construct (avr : Bool) (pin bits : Nat) (vref : ℚ) (b : Board) :
      Reachable (ctor avr pin bits vref b).1
  | temperatureOffset {s : AD8495} (x : ℚ) :
      Reachable s → Reachable (setTemperatureOffset s x)
  | voltageOffset {s : AD8495} (x : ℚ) :
      Reachable s → Reachable (setVoltageOffset s x)

/-- A board whose every pin delivers the constant sample `r`. -/
def constBoard (r : Int) : Board :=
  { input := fun _ _ => r, reads := fun _ => 0, adcBits := none }

/-- Channel and board of the accumulator wrap-around scenario: a 31-bit
channel on pin 0 whose every sample is the full-scale value `2^31 - 1`. -/
def wrapScenario : AD8495 × Board :=
  ctor false 0 31 3.3 (constBoard 2147483647)

/-- Channel and board of the scenario of the specification: 12 bits, 3.3 V
reference, default calibration, every raw sample equal to 1024. -/
def specScenario : AD8495 × Board :=
  ctor false 0 12 3.3 (constBoard 1024)

/-- A call of a public method of `AD8495`, with its arguments. -/
inductive Op where
  | setTemperatureOffset (offset : ℚ)
  | getTemperatureOffset
  | getPrecision
  | readVoltage (samples : Nat)
  | getTemperatureC (samples : Nat)
  | getTemperatureF (samples : Nat)
  | getSetpointVoltage (temperature_c : ℚ)
  | setVoltageOffset (newOffset : ℚ)

/-- Effect of one method call on the channel object and the board; the value
the call returns is dropped. -/
def runOp : Op → AD8495 × Board → AD8495 × Board
  | .setTemperatureOffset offset, (s, b) => (setTemperatureOffset s offset, b)
  | .getTemperatureOffset, (s, b) => (s, b)
  | .getPrecision, (s, b) => (s, b)
  | .readVoltage samples, (s, b) => (s, (readVoltage s samples b).2)
  | .getTemperatureC samples, (s, b) => (s, (getTemperatureC s samples b).2)
  | .getTemperatureF samples, (s, b) => (s, (getTemperatureF s samples b).2)
  | .getSetpointVoltage _, (s, b) => (s, b)
  | .setVoltageOffset newOffset, (s, b) => (setVoltageOffset s newOffset, b)

/-- Effect of a sequence of method calls, executed from left to right. -/
def runOps (ops : List Op) (st : AD8495 × Board) : AD8495 × Board :=
  ops.foldl (fun st op => runOp op st) st

/-- The board `b` after `n` further reads on `pin`. -/
def advance (pin n : Nat) (b : Board) : Board :=
  { b with reads := fun p => if p = pin then b.reads p + n else b.reads p }

/-! ## Auxiliary lemmas -/

theorem fdiv_of_ne_zero (x : ℚ) {y : ℚ} (hy : y ≠ 0) : fdiv x y = some (x / y) := by
  simp [fdiv, hy]

theorem resolution_ne_zero {bits : Nat} (hb : 1 ≤ bits) : (2 : ℚ) ^ bits - 1 ≠ 0 := by
  have h : (1 : ℚ) < 2 ^ bits := one_lt_pow₀ (by norm_num) (by omega)
  linarith

theorem readVoltageLoop_fst (pin n : Nat) (total : Int) (b : Board)
    (ht : 0 ≤ total ∧ total < 4294967296) :
    (readVoltageLoop pin n total b).1 = (total + (nextSamples pin n b).sum) % 4294967296 := by
  induction n generalizing total b with
  | zero => simp only [readVoltageLoop, nextSamples, List.sum_nil]; omega
  | succ k ih =>
    simp only [readVoltageLoop, nextSamples, List.sum_cons]
    rw [ih _ _ (by omega)]
    omega

theorem sum_nonneg_of_forall {l : List Int} (h : ∀ r ∈ l, 0 ≤ r) : 0 ≤ l.sum := by
  induction l with
  | nil => simp
  | cons a t ih =>
    simp only [List.sum_cons]
    have := h a (by simp)
    have := ih (fun r hr => h r (by simp [hr]))
    omega

theorem readVoltageLoop_exact (pin n : Nat) (b : Board)
    (h0 : ∀ r ∈ nextSamples pin n b, 0 ≤ r) (hlt : (nextSamples pin n b).sum < 4294967296) :
    (readVoltageLoop pin n 0 b).1 = (nextSamples pin n b).sum := by
  have hs := sum_nonneg_of_forall h0
  rw [readVoltageLoop_fst pin n 0 b (by omega)]
  omega

theorem readVoltage_fst (s : AD8495) {n : Nat} (hn : 1 ≤ n) (b : Board) :
    (readVoltage s n b).1 =
      s._lsb.map fun lsb => ((readVoltageLoop s._pin n 0 b).1 : ℚ) / n * lsb := by
  have hq : (n : ℚ) ≠ 0 := by
    have : n ≠ 0 := by omega
    exact_mod_cast this
  simp [readVoltage, fdiv_of_ne_zero _ hq]

theorem readVoltage_isSome (s : AD8495) {n : Nat} (hn : 1 ≤ n) (b : Board) {p : ℚ}
    (hp : getPrecision s = some p) :
    (readVoltage s n b).1 = some (((readVoltageLoop s._pin n 0 b).1 : ℚ) / n * p) := by
  rw [readVoltage_fst s hn b]
  simp only [getPrecision] at hp
  simp [hp]

theorem readVoltage_isSome_eq (s : AD8495) {n : Nat} (hn : 1 ≤ n) (b : Board) :
    (readVoltage s n b).1.isSome = (getPrecision s).isSome := by
  rw [readVoltage_fst s hn b]
  simp [getPrecision]

theorem deg_per_mv_of_reachable {s : AD8495} (h : Reachable s) : s._deg_per_mv = 200 := by
  induction h with
  | construct avr pin bits vref b => simp only [ctor]; norm_num
  | temperatureOffset x _ ih => simpa [setTemperatureOffset] using ih
  | voltageOffset x _ ih => simpa [setVoltageOffset] using ih

theorem getSetpointVoltage_of_reachable {s : AD8495} (h : Reachable s) (t : ℚ) :
    getSetpointVoltage s t = some (t / 200) := by
  simp [getSetpointVoltage, deg_per_mv_of_reachable h, fdiv]

theorem runOp_frame (op : Op) (st : AD8495 × Board) :
    (runOp op st).1._pin = st.1._pin ∧ (runOp op st).1._resolution = st.1._resolution ∧
      (runOp op st).1._vref = st.1._vref ∧ (runOp op st).1._lsb = st.1._lsb ∧
      (runOp op st).1._deg_per_mv = st.1._deg_per_mv := by
  obtain ⟨s, b⟩ := st
  cases op <;> exact ⟨rfl, rfl, rfl, rfl, rfl⟩

theorem runOps_frame (ops : List Op) (st : AD8495 × Board) :
    (runOps ops st).1._pin = st.1._pin ∧ (runOps ops st).1._resolution = st.1._resolution ∧
      (runOps ops st).1._vref = st.1._vref ∧ (runOps ops st).1._lsb = st.1._lsb ∧
      (runOps ops st).1._deg_per_mv = st.1._deg_per_mv := by
  induction ops generalizing st with
  | nil => exact ⟨rfl, rfl, rfl, rfl, rfl⟩
  | cons op rest ih =>
    obtain ⟨h1, h2, h3, h4, h5⟩ := ih (runOp op st)
    obtain ⟨g1, g2, g3, g4, g5⟩ := runOp_frame op st
    simp only [runOps, List.foldl_cons] at h1 h2 h3 h4 h5 ⊢
    exact ⟨h1.trans g1, h2.trans g2, h3.trans g3, h4.trans g4, h5.trans g5⟩

theorem advance_zero (pin : Nat) (b : Board) : advance pin 0 b = b := by
  cases b
  simp [advance]

theorem advance_advance (pin m k : Nat) (b : Board) :
    advance pin k (advance pin m b) = advance pin (m + k) b := by
  simp only [advance, Board.mk.injEq, true_and, and_true]
  funext p
  by_cases h : p = pin <;> simp [h, Nat.add_assoc]

theorem analogRead_snd (pin : Nat) (b : Board) : (analogRead pin b).2 = advance pin 1 b :=
  rfl

theorem readVoltageLoop_snd (pin n : Nat) (total : Int) (b : Board) :
    (readVoltageLoop pin n total b).2 = advance pin n b := by
  induction n generalizing total b with
  | zero => simp [readVoltageLoop, advance_zero]
  | succ k ih =>
    simp only [readVoltageLoop]
    rw [ih, analogRead_snd, advance_advance, Nat.add_comm]

theorem nextSamples_eq_map (pin n : Nat) (b : Board) :
    nextSamples pin n b = (List.range n).map fun i => b.input pin (b.reads pin + i) := by
  induction n generalizing b with
  | zero => rfl
  | succ k ih =>
    rw [nextSamples, ih, List.range_succ_eq_map]
    simp [analogRead, Function.comp_def, Nat.add_assoc, Nat.add_comm 1]

theorem readVoltage_snd (s : AD8495) (n : Nat) (b : Board) :
    (readVoltage s n b).2 = advance s._pin n b :=
  readVoltageLoop_snd s._pin n 0 b

theorem readVoltage_congr (s : AD8495) (n : Nat) {b1 b2 : Board}
    (h : nextSamples s._pin n b1 = nextSamples s._pin n b2) :
    (readVoltage s n b1).1 = (readVoltage s n b2).1 := by
  simp only [readVoltage]
  rw [readVoltageLoop_fst s._pin n 0 b1 (by omega), readVoltageLoop_fst s._pin n 0 b2 (by omega), h]

theorem nextSamples_length (pin n : Nat) (b : Board) : (nextSamples pin n b).length = n := by
  induction n generalizing b with
  | zero => rfl
  | succ k ih => simp [nextSamples, ih]

theorem sum_le_of_forall_le {l : List Int} (h : ∀ r ∈ l, r ≤ 65535) :
    l.sum ≤ 65535 * (l.length : Int) := by
  induction l with
  | nil => simp
  | cons a t ih =>
    have h1 := h a (by simp)
    have h2 := ih (fun r hr => h r (by simp [hr]))
    simp only [List.sum_cons, List.length_cons]
    push_cast
    omega

theorem fdiv_eq_none_iff (x y : ℚ) : fdiv x y = none ↔ y = 0 := by
  by_cases h : y = 0 <;> simp [fdiv, h]

theorem readVoltage_eq_none_iff (s : AD8495) (n : Nat) (b : Board) :
    (readVoltage s n b).1 = none ↔ n = 0 ∨ getPrecision s = none := by
  rcases Nat.eq_zero_or_pos n with hn | hn
  · subst hn
    simp [readVoltage, fdiv]
  · rw [readVoltage_fst s hn b]
    have : n ≠ 0 := by omega
    simp [getPrecision, this]

theorem getPrecision_runOps_ctor (avr : Bool) (pin bits : Nat) (vref : ℚ) (b0 : Board)
    (ops : List Op) (hb : 1 ≤ bits) :
    getPrecision (runOps ops (ctor avr pin bits vref b0)).1 =
      some (vref / ((2 : ℚ) ^ bits - 1)) := by
  rw [getPrecision, (runOps_frame ops (ctor avr pin bits vref b0)).2.2.2.1]
  simp [ctor, fdiv_of_ne_zero _ (resolution_ne_zero hb)]

theorem pin_runOps_ctor (avr : Bool) (pin bits : Nat) (vref : ℚ) (b0 : Board)
    (ops : List Op) : (runOps ops (ctor avr pin bits vref b0)).1._pin = pin :=
  (runOps_frame ops (ctor avr pin bits vref b0)).1

theorem readVoltage_of_sum (s : AD8495) {n : Nat} (hn : 1 ≤ n) (b : Board) {p : ℚ}
    (hp : getPrecision s = some p) (h0 : 0 ≤ (nextSamples s._pin n b).sum)
    (hlt : (nextSamples s._pin n b).sum < 4294967296) :
    (readVoltage s n b).1 = some ((((nextSamples s._pin n b).sum : Int) : ℚ) / n * p) := by
  rw [readVoltage_isSome s hn b hp, readVoltageLoop_fst s._pin n 0 b (by omega), zero_add]
  have hT : (nextSamples s._pin n b).sum % 4294967296 = (nextSamples s._pin n b).sum := by
    omega
  rw [hT]

theorem getTemperatureC_of_readVoltage (s : AD8495) (n : Nat) (b : Board) {V : ℚ}
    (hV : (readVoltage s n b).1 = some V) :
    (getTemperatureC s n b).1 = some ((V - s._voltage_offset_constant) / 0.005 + s._offset) := by
  simp [getTemperatureC, hV]

theorem getTemperatureF_of_readVoltage (s : AD8495) (n : Nat) (b : Board) {V : ℚ}
    (hV : (readVoltage s n b).1 = some V) :
    (getTemperatureF s n b).1 =
      some (((V - s._voltage_offset_constant) / 0.005 + s._offset) * 1.8 + 32.0) := by
  simp [getTemperatureF, getTemperatureC, hV]

/-! ## Averaged voltage -/

/-- C1 (as amended): for every sample count `n ≥ 1` and every sequence of
non-negative raw samples whose sum is below `2^32`, `readVoltage(n)` is the exact
mean of the `n` samples multiplied by `getPrecision()`. -/
theorem readVoltage_eq_mean (s : AD8495) (n : Nat) (b : Board) (hn : 1 ≤ n)
    (h0 : ∀ r ∈ nextSamples s._pin n b, 0 ≤ r)
    (hlt : (nextSamples s._pin n b).sum < 4294967296) :
    (readVoltage s n b).1 =
      (getPrecision s).map fun p => (((nextSamples s._pin n b).sum : Int) : ℚ) / n * p := by
  rw [readVoltage_fst s hn b, readVoltageLoop_exact s._pin n b h0 hlt]
  rfl

/-- Witness for C1: three samples of 1024 on the 12-bit, 3.3 V channel. -/
theorem readVoltage_eq_mean_witness :
    (readVoltage specScenario.1 3 specScenario.2).1 =
      (getPrecision specScenario.1).map fun p =>
        (((nextSamples specScenario.1._pin 3 specScenario.2).sum : Int) : ℚ) / (3 : Nat) * p :=
  readVoltage_eq_mean specScenario.1 3 specScenario.2 (by decide)
    (by simp [nextSamples, analogRead, specScenario, ctor, constBoard, analogReadResolution])
    (by simp [nextSamples, analogRead, specScenario, ctor, constBoard, analogReadResolution])

/-- C1 fails as stated: on a 31-bit channel, three samples equal to the full
scale `2^31 - 1` lie in `[0, resolutionSteps]`, yet the `uint32_t` accumulator
wraps and `readVoltage(3)` differs from the mean times `getPrecision()`. -/
theorem readVoltage_eq_mean_fails_on_wrap :
    (1 ≤ 3 ∧ 3 ≤ 65535) ∧
    (∀ r ∈ nextSamples wrapScenario.1._pin 3 wrapScenario.2,
      0 ≤ r ∧ (r : ℚ) ≤ wrapScenario.1._resolution) ∧
    (readVoltage wrapScenario.1 3 wrapScenario.2).1 = some (4724464019 / 4294967294) ∧
    ((getPrecision wrapScenario.1).map fun p =>
      (((nextSamples wrapScenario.1._pin 3 wrapScenario.2).sum : Int) : ℚ) / (3 : Nat) * p)
      = some (33 / 10) ∧
    (readVoltage wrapScenario.1 3 wrapScenario.2).1 ≠
      (getPrecision wrapScenario.1).map fun p =>
        (((nextSamples wrapScenario.1._pin 3 wrapScenario.2).sum : Int) : ℚ) / (3 : Nat) * p := by
  have hv : (readVoltage wrapScenario.1 3 wrapScenario.2).1 = some (4724464019 / 4294967294) := by
    simp [readVoltage, readVoltageLoop, analogRead, wrapScenario, ctor, constBoard,
      analogReadResolution, fdiv]
    norm_num
  have hm : ((getPrecision wrapScenario.1).map fun p =>
      (((nextSamples wrapScenario.1._pin 3 wrapScenario.2).sum : Int) : ℚ) / (3 : Nat) * p)
      = some (33 / 10) := by
    simp [getPrecision, nextSamples, analogRead, wrapScenario, ctor, constBoard,
      analogReadResolution, fdiv]
    norm_num
  refine ⟨by decide, ?_, hv, hm, ?_⟩
  · simp [nextSamples, analogRead, wrapScenario, ctor, constBoard, analogReadResolution]
    norm_num
  · rw [hv, hm]
    norm_num


/-! ## Temperature conversions -/

/-- C2: for every sample count `n ≥ 1`, every sample sequence and every current
voltage and temperature offset, `getTemperatureC(n)` is
`(V - voltageOffset) / 0.005 + temperatureOffset`, where `V` is the value
`readVoltage(n)` returns for the same samples; both calls consume the same
samples, and `V` is a defined value exactly when the precision is. -/
theorem getTemperatureC_eq (s : AD8495) (n : Nat) (b : Board) (hn : 1 ≤ n) :
    (getTemperatureC s n b).1 =
      (readVoltage s n b).1.map
        (fun V => (V - s._voltage_offset_constant) / 0.005 + s._offset) ∧
    (getTemperatureC s n b).2 = (readVoltage s n b).2 ∧
    (readVoltage s n b).1.isSome = (getPrecision s).isSome := by
  refine ⟨?_, rfl, readVoltage_isSome_eq s hn b⟩
  simp [getTemperatureC, Option.map_map, Function.comp_def]

/-- Witness for C2: five samples of 1024 on the 12-bit, 3.3 V channel after
calibrating both offsets. -/
theorem getTemperatureC_eq_witness :
    (getTemperatureC (setTemperatureOffset (setVoltageOffset specScenario.1 1.25) 3) 5
        specScenario.2).1 =
      (readVoltage (setTemperatureOffset (setVoltageOffset specScenario.1 1.25) 3) 5
        specScenario.2).1.map
        (fun V =>
          (V - (setTemperatureOffset (setVoltageOffset specScenario.1 1.25) 3)._voltage_offset_constant)
            / 0.005
          + (setTemperatureOffset (setVoltageOffset specScenario.1 1.25) 3)._offset) ∧
    (getTemperatureC (setTemperatureOffset (setVoltageOffset specScenario.1 1.25) 3) 5
        specScenario.2).2 =
      (readVoltage (setTemperatureOffset (setVoltageOffset specScenario.1 1.25) 3) 5
        specScenario.2).2 ∧
    (readVoltage (setTemperatureOffset (setVoltageOffset specScenario.1 1.25) 3) 5
        specScenario.2).1.isSome =
      (getPrecision (setTemperatureOffset (setVoltageOffset specScenario.1 1.25) 3)).isSome :=
  getTemperatureC_eq (setTemperatureOffset (setVoltageOffset specScenario.1 1.25) 3) 5
    specScenario.2 (by decide)

/-- C3: for every sample count `n ≥ 1` and every sample sequence,
`getTemperatureF(n)` is `getTemperatureC(n) * 1.8 + 32.0` when both are computed
from the same samples and the same calibration state; both calls consume the
same samples, and the Celsius value is defined exactly when the precision is. -/
theorem getTemperatureF_eq (s : AD8495) (n : Nat) (b : Board) (hn : 1 ≤ n) :
    (getTemperatureF s n b).1 =
      (getTemperatureC s n b).1.map (fun c => c * 1.8 + 32.0) ∧
    (getTemperatureF s n b).2 = (getTemperatureC s n b).2 ∧
    (getTemperatureC s n b).1.isSome = (getPrecision s).isSome := by
  refine ⟨rfl, rfl, ?_⟩
  simp [getTemperatureC, readVoltage_isSome_eq s hn b]

/-- Witness for C3: five samples of 1024 on the 12-bit, 3.3 V channel. -/
theorem getTemperatureF_eq_witness :
    (getTemperatureF specScenario.1 5 specScenario.2).1 =
      (getTemperatureC specScenario.1 5 specScenario.2).1.map (fun c => c * 1.8 + 32.0) ∧
    (getTemperatureF specScenario.1 5 specScenario.2).2 =
      (getTemperatureC specScenario.1 5 specScenario.2).2 ∧
    (getTemperatureC specScenario.1 5 specScenario.2).1.isSome =
      (getPrecision specScenario.1).isSome :=
  getTemperatureF_eq specScenario.1 5 specScenario.2 (by decide)

/-! ## Precision -/

/-- C4: a channel constructed with `bits ≥ 1` has
`getPrecision() = referenceVoltage / (2^bits - 1)`; for 12 bits and 3.3 V the
precision is `3.3 / 4095`, which is `0.000806` rounded to six decimals. -/
theorem getPrecision_ctor (avr : Bool) (pin bits : Nat) (vref : ℚ) (b : Board)
    (hb : 1 ≤ bits) :
    getPrecision (ctor avr pin bits vref b).1 = some (vref / ((2 : ℚ) ^ bits - 1)) ∧
    getPrecision (ctor avr pin 12 3.3 b).1 = some (3.3 / 4095) ∧
    |(3.3 / 4095 : ℚ) - 0.000806| < 0.0000005 := by
  refine ⟨?_, ?_, ?_⟩
  · simp [getPrecision, ctor, fdiv_of_ne_zero _ (resolution_ne_zero hb)]
  · simp [getPrecision, ctor, fdiv]
    norm_num
  · rw [abs_lt]
    norm_num

/-- Witness for C4: a 10-bit channel with a 5 V reference. -/
theorem getPrecision_ctor_witness :
    getPrecision (ctor true 3 10 5 (constBoard 0)).1 = some (5 / ((2 : ℚ) ^ 10 - 1)) ∧
    getPrecision (ctor true 3 12 3.3 (constBoard 0)).1 = some (3.3 / 4095) ∧
    |(3.3 / 4095 : ℚ) - 0.000806| < 0.0000005 :=
  getPrecision_ctor true 3 10 5 (constBoard 0) (by decide)


/-! ## The 12-bit, 3.3 V scenario with every raw sample equal to 1024 -/

/-- C5 (as amended): on a channel constructed with 12 bits and a 3.3 V
reference, when the next five raw samples are all 1024, `readVoltage(5)` is
exactly `5632/6825 = 0.825201...`, which agrees with `0.8252` to four decimals. -/
theorem readVoltage_scenario (avr : Bool) (pin : Nat) (b0 b : Board)
    (h : nextSamples pin 5 b = [1024, 1024, 1024, 1024, 1024]) :
    ∃ V : ℚ, (readVoltage (ctor avr pin 12 3.3 b0).1 5 b).1 = some V ∧
      V = 5632 / 6825 ∧ |V - 0.8252| < 0.00005 := by
  have hp : getPrecision (ctor avr pin 12 3.3 b0).1 = some (3.3 / 4095) := by
    simp [getPrecision, ctor, fdiv]
    norm_num
  have hl : (readVoltageLoop pin 5 0 b).1 = 5120 := by
    rw [readVoltageLoop_exact pin 5 b (by rw [h]; simp) (by rw [h]; decide), h]
    rfl
  have hv := readVoltage_isSome (ctor avr pin 12 3.3 b0).1 (by decide : 1 ≤ 5) b hp
  simp only [ctor, hl] at hv
  refine ⟨_, hv, by norm_num, ?_⟩
  rw [abs_lt]
  norm_num

/-- Witness for C5: the scenario channel and board. -/
theorem readVoltage_scenario_witness :
    ∃ V : ℚ, (readVoltage (ctor false 0 12 3.3 (constBoard 1024)).1 5 specScenario.2).1 = some V ∧
      V = 5632 / 6825 ∧ |V - 0.8252| < 0.00005 :=
  readVoltage_scenario false 0 (constBoard 1024) specScenario.2
    (by simp [nextSamples, analogRead, specScenario, ctor, constBoard, analogReadResolution])

/-- C5 fails as stated: in the scenario `readVoltage(5)` returns `5632/6825`,
which is further than `0.00005` from `0.8254`. -/
theorem readVoltage_scenario_not_8254 :
    ∃ V : ℚ, (readVoltage specScenario.1 5 specScenario.2).1 = some V ∧
      ¬ |V - 0.8254| < 0.00005 := by
  refine ⟨5632 / 6825, ?_, ?_⟩
  · simp [readVoltage, readVoltageLoop, analogRead, specScenario, ctor, constBoard,
      analogReadResolution, fdiv]
    norm_num
  · rw [abs_lt]
    norm_num

/-- C6 (as amended): on a channel constructed with 12 bits and a 3.3 V
reference and left at its default calibration (voltage offset 2.5, temperature
offset 0), when the next five raw samples are all 1024, `getTemperatureC(5)` is
exactly `-91444/273 = -334.9597...`, that is `-334.96` to two decimals and
`-335.0` to one decimal. -/
theorem getTemperatureC_scenario (avr : Bool) (pin : Nat) (b0 b : Board)
    (h : nextSamples pin 5 b = [1024, 1024, 1024, 1024, 1024]) :
    ∃ T : ℚ, (getTemperatureC (ctor avr pin 12 3.3 b0).1 5 b).1 = some T ∧
      T = -91444 / 273 ∧ |T - (-334.96)| < 0.005 ∧ |T - (-335.0)| < 0.05 := by
  have hp : getPrecision (ctor avr pin 12 3.3 b0).1 = some (3.3 / 4095) := by
    simp [getPrecision, ctor, fdiv]
    norm_num
  have hl : (readVoltageLoop pin 5 0 b).1 = 5120 := by
    rw [readVoltageLoop_exact pin 5 b (by rw [h]; simp) (by rw [h]; decide), h]
    rfl
  have hv := readVoltage_isSome (ctor avr pin 12 3.3 b0).1 (by decide : 1 ≤ 5) b hp
  have hT : (getTemperatureC (ctor avr pin 12 3.3 b0).1 5 b).1 = some (-91444 / 273) := by
    simp only [getTemperatureC, hv, Option.map_some']
    simp only [ctor, hl]
    norm_num
  refine ⟨_, hT, rfl, ?_, ?_⟩ <;> rw [abs_lt] <;> norm_num

/-- Witness for C6: the scenario channel and board. -/
theorem getTemperatureC_scenario_witness :
    ∃ T : ℚ, (getTemperatureC (ctor false 0 12 3.3 (constBoard 1024)).1 5 specScenario.2).1
        = some T ∧
      T = -91444 / 273 ∧ |T - (-334.96)| < 0.005 ∧ |T - (-335.0)| < 0.05 :=
  getTemperatureC_scenario false 0 (constBoard 1024) specScenario.2
    (by simp [nextSamples, analogRead, specScenario, ctor, constBoard, analogReadResolution])

/-- C6 fails as stated: in the scenario `getTemperatureC(5)` returns
`-91444/273 = -334.9597...`, which is further than `0.05` from `-334.9`. -/
theorem getTemperatureC_scenario_not_3349 :
    ∃ T : ℚ, (getTemperatureC specScenario.1 5 specScenario.2).1 = some T ∧
      ¬ |T - (-334.9)| < 0.05 := by
  refine ⟨-91444 / 273, ?_, ?_⟩
  · simp [getTemperatureC, readVoltage, readVoltageLoop, analogRead, specScenario, ctor,
      constBoard, analogReadResolution, fdiv]
    norm_num
  · rw [abs_lt]
    norm_num


/-! ## Setpoint voltage -/

/-- C7: in every channel state reachable from construction, `getSetpointVoltage`
returns a value for every temperature `t`, `getSetpointVoltage(2*t)` is twice
`getSetpointVoltage(t)`, and `getSetpointVoltage(0)` is `0`. -/
theorem getSetpointVoltage_linear (s : AD8495) (t : ℚ) (hs : Reachable s) :
    ∃ v : ℚ, getSetpointVoltage s t = some v ∧
      getSetpointVoltage s (2 * t) = some (2 * v) ∧
      getSetpointVoltage s 0 = some 0 := by
  refine ⟨t / 200, getSetpointVoltage_of_reachable hs t, ?_, ?_⟩
  · rw [getSetpointVoltage_of_reachable hs]
    congr 1
    ring
  · rw [getSetpointVoltage_of_reachable hs]
    simp

/-- Witness for C7: the scenario channel after a calibration call, at 25 °C. -/
theorem getSetpointVoltage_linear_witness :
    ∃ v : ℚ, getSetpointVoltage (setVoltageOffset specScenario.1 1.25) 25 = some v ∧
      getSetpointVoltage (setVoltageOffset specScenario.1 1.25) (2 * 25) = some (2 * v) ∧
      getSetpointVoltage (setVoltageOffset specScenario.1 1.25) 0 = some 0 :=
  getSetpointVoltage_linear (setVoltageOffset specScenario.1 1.25) 25
    (Reachable.voltageOffset 1.25 (Reachable.construct false 0 12 3.3 (constBoard 1024)))

/-- C8: in every channel state reachable from construction by calibration
calls, the sensitivity constant is `1.0 / 0.005` and `getSetpointVoltage(t)` is
`t * 0.005`; any two reachable states, whatever their board, pin, resolution,
reference voltage, voltage offset and temperature offset, give the same result. -/
theorem getSetpointVoltage_eq (s s' : AD8495) (t : ℚ) (hs : Reachable s)
    (hs' : Reachable s') :
    s._deg_per_mv = 1.0 / 0.005 ∧
    getSetpointVoltage s t = some (t * 0.005) ∧
    getSetpointVoltage s' t = getSetpointVoltage s t := by
  refine ⟨?_, ?_, ?_⟩
  · rw [deg_per_mv_of_reachable hs]
    norm_num
  · rw [getSetpointVoltage_of_reachable hs]
    congr 1
    norm_num
    ring
  · rw [getSetpointVoltage_of_reachable hs, getSetpointVoltage_of_reachable hs']

/-- Witness for C8: the scenario channel against a recalibrated 10-bit channel
on another board. -/
theorem getSetpointVoltage_eq_witness :
    specScenario.1._deg_per_mv = 1.0 / 0.005 ∧
    getSetpointVoltage specScenario.1 100 = some (100 * 0.005) ∧
    getSetpointVoltage
        (setTemperatureOffset (setVoltageOffset (ctor true 3 10 5 (constBoard 7)).1 1.25) 2) 100
      = getSetpointVoltage specScenario.1 100 :=
  getSetpointVoltage_eq specScenario.1
    (setTemperatureOffset (setVoltageOffset (ctor true 3 10 5 (constBoard 7)).1 1.25) 2) 100
    (Reachable.construct false 0 12 3.3 (constBoard 1024))
    (Reachable.temperatureOffset 2
      (Reachable.voltageOffset 1.25 (Reachable.construct true 3 10 5 (constBoard 7))))

/-! ## Calibration accessors -/

/-- C9: for every value `x` and every channel state, `setTemperatureOffset(x)`
followed by `getTemperatureOffset()` returns exactly `x`. -/
theorem getTemperatureOffset_setTemperatureOffset (s : AD8495) (x : ℚ) :
    getTemperatureOffset (setTemperatureOffset s x) = x :=
  rfl

/-- C10: last write wins for the temperature offset. The state after
`setTemperatureOffset(x); setTemperatureOffset(y)` is the state after
`setTemperatureOffset(y)` alone, and for `n ≥ 1` a subsequent
`getTemperatureC(n)` is `(V - voltageOffset) / 0.005 + y`, where `V` is what
`readVoltage(n)` returns on the same samples (a defined value exactly when the
precision is): `x` does not contribute. -/
theorem setTemperatureOffset_last_wins (s : AD8495) (x y : ℚ) (n : Nat) (b : Board)
    (hn : 1 ≤ n) :
    setTemperatureOffset (setTemperatureOffset s x) y = setTemperatureOffset s y ∧
    (getTemperatureC (setTemperatureOffset (setTemperatureOffset s x) y) n b).1 =
      (readVoltage s n b).1.map (fun V => (V - s._voltage_offset_constant) / 0.005 + y) ∧
    (readVoltage s n b).1.isSome = (getPrecision s).isSome := by
  refine ⟨rfl, ?_, readVoltage_isSome_eq s hn b⟩
  have hc : (getTemperatureC (setTemperatureOffset (setTemperatureOffset s x) y) n b).1 =
      ((readVoltage s n b).1.map fun V => (V - s._voltage_offset_constant) / 0.005).map
        fun t => t + y := rfl
  rw [hc, Option.map_map]
  rfl

/-- Witness for C10: offsets 7 then 3 on the scenario channel, five samples. -/
theorem setTemperatureOffset_last_wins_witness :
    setTemperatureOffset (setTemperatureOffset specScenario.1 7) 3 =
      setTemperatureOffset specScenario.1 3 ∧
    (getTemperatureC (setTemperatureOffset (setTemperatureOffset specScenario.1 7) 3) 5
        specScenario.2).1 =
      (readVoltage specScenario.1 5 specScenario.2).1.map
        (fun V => (V - specScenario.1._voltage_offset_constant) / 0.005 + 3) ∧
    (readVoltage specScenario.1 5 specScenario.2).1.isSome =
      (getPrecision specScenario.1).isSome :=
  setTemperatureOffset_last_wins specScenario.1 7 3 5 specScenario.2 (by decide)


/-! ## Single-sample reads, frame conditions and defaults -/

/-- C11: for `sampleCount = 1` and every raw sample `r` returned by the sample
source (a non-negative value of the C type `int`, hence below `2^32`),
`readVoltage(1)` is exactly `r * getPrecision()`. -/
theorem readVoltage_one (s : AD8495) (b : Board) (h0 : 0 ≤ (analogRead s._pin b).1)
    (hlt : (analogRead s._pin b).1 < 4294967296) :
    (readVoltage s 1 b).1 =
      (getPrecision s).map fun p => (((analogRead s._pin b).1 : Int) : ℚ) * p := by
  have hl : (readVoltageLoop s._pin 1 0 b).1 = (analogRead s._pin b).1 := by
    simp only [readVoltageLoop]
    omega
  rw [readVoltage_fst s (le_refl 1) b, hl]
  simp [getPrecision]

/-- Witness for C11: one sample of 1024 on the 12-bit, 3.3 V channel. -/
theorem readVoltage_one_witness :
    (readVoltage specScenario.1 1 specScenario.2).1 =
      (getPrecision specScenario.1).map fun p =>
        (((analogRead specScenario.1._pin specScenario.2).1 : Int) : ℚ) * p :=
  readVoltage_one specScenario.1 specScenario.2
    (by simp [analogRead, specScenario, ctor, constBoard, analogReadResolution])
    (by simp [analogRead, specScenario, ctor, constBoard, analogReadResolution])

/-- C12: the calibration setters change only their own field.
`setTemperatureOffset(t)` leaves pin, resolution, reference voltage, voltage
offset, precision and sensitivity constant unchanged; `setVoltageOffset(v)`
leaves pin, resolution, reference voltage, temperature offset, precision and
sensitivity constant unchanged; and after any sequence of method calls
following construction `getPrecision()` is still
`referenceVoltage / resolutionSteps` (a defined value when `bits ≥ 1`). -/
theorem setters_frame (s : AD8495) (t v : ℚ) (avr : Bool) (pin bits : Nat) (vref : ℚ)
    (b : Board) (ops : List Op) :
    ((setTemperatureOffset s t)._pin = s._pin ∧
      (setTemperatureOffset s t)._resolution = s._resolution ∧
      (setTemperatureOffset s t)._vref = s._vref ∧
      (setTemperatureOffset s t)._voltage_offset_constant = s._voltage_offset_constant ∧
      (setTemperatureOffset s t)._lsb = s._lsb ∧
      (setTemperatureOffset s t)._deg_per_mv = s._deg_per_mv) ∧
    ((setVoltageOffset s v)._pin = s._pin ∧
      (setVoltageOffset s v)._resolution = s._resolution ∧
      (setVoltageOffset s v)._vref = s._vref ∧
      (setVoltageOffset s v)._offset = s._offset ∧
      (setVoltageOffset s v)._lsb = s._lsb ∧
      (setVoltageOffset s v)._deg_per_mv = s._deg_per_mv) ∧
    (runOps ops (ctor avr pin bits vref b)).1._vref = vref ∧
    (runOps ops (ctor avr pin bits vref b)).1._resolution = (2 : ℚ) ^ bits - 1 ∧
    getPrecision (runOps ops (ctor avr pin bits vref b)).1 =
      fdiv (runOps ops (ctor avr pin bits vref b)).1._vref
        (runOps ops (ctor avr pin bits vref b)).1._resolution ∧
    (1 ≤ bits →
      getPrecision (runOps ops (ctor avr pin bits vref b)).1 =
        some (vref / ((2 : ℚ) ^ bits - 1))) := by
  obtain ⟨_, hres, hvref, hlsb, _⟩ := runOps_frame ops (ctor avr pin bits vref b)
  refine ⟨⟨rfl, rfl, rfl, rfl, rfl, rfl⟩, ⟨rfl, rfl, rfl, rfl, rfl, rfl⟩, ?_, ?_, ?_, ?_⟩
  · rw [hvref]; rfl
  · rw [hres]; rfl
  · rw [getPrecision, hlsb, hvref, hres]; rfl
  · intro hb
    rw [getPrecision, hlsb]
    simp [ctor, fdiv_of_ne_zero _ (resolution_ne_zero hb)]

/-- C13: immediately after construction, for any pin, bit width and reference
voltage, the temperature offset is `0` and the voltage offset is `2.5`, so for
every `n ≥ 1` `getTemperatureC(n)` is `(V - 2.5) / 0.005`, where `V` is what
`readVoltage(n)` returns on the same samples (a defined value when `bits ≥ 1`). -/
theorem ctor_defaults (avr : Bool) (pin bits : Nat) (vref : ℚ) (b0 b : Board) (n : Nat)
    (hn : 1 ≤ n) :
    getTemperatureOffset (ctor avr pin bits vref b0).1 = 0 ∧
    (ctor avr pin bits vref b0).1._voltage_offset_constant = 2.5 ∧
    (getTemperatureC (ctor avr pin bits vref b0).1 n b).1 =
      (readVoltage (ctor avr pin bits vref b0).1 n b).1.map (fun V => (V - 2.5) / 0.005) ∧
    (getTemperatureC (ctor avr pin bits vref b0).1 n b).2 =
      (readVoltage (ctor avr pin bits vref b0).1 n b).2 ∧
    (1 ≤ bits → (readVoltage (ctor avr pin bits vref b0).1 n b).1.isSome = true) := by
  refine ⟨?_, rfl, ?_, rfl, ?_⟩
  · simp only [getTemperatureOffset, ctor]
    norm_num
  · have h0 : (0.0 : ℚ) = 0 := by norm_num
    simp only [getTemperatureC, ctor, Option.map_map, Function.comp_def, h0, add_zero]
  · intro hb
    rw [readVoltage_isSome_eq _ hn b]
    simp [getPrecision, ctor, fdiv_of_ne_zero _ (resolution_ne_zero hb)]

/-- Witness for C13: the 12-bit, 3.3 V channel reading five samples. -/
theorem ctor_defaults_witness :
    getTemperatureOffset (ctor false 0 12 3.3 (constBoard 1024)).1 = 0 ∧
    (ctor false 0 12 3.3 (constBoard 1024)).1._voltage_offset_constant = 2.5 ∧
    (getTemperatureC (ctor false 0 12 3.3 (constBoard 1024)).1 5 specScenario.2).1 =
      (readVoltage (ctor false 0 12 3.3 (constBoard 1024)).1 5 specScenario.2).1.map
        (fun V => (V - 2.5) / 0.005) ∧
    (getTemperatureC (ctor false 0 12 3.3 (constBoard 1024)).1 5 specScenario.2).2 =
      (readVoltage (ctor false 0 12 3.3 (constBoard 1024)).1 5 specScenario.2).2 ∧
    (1 ≤ 12 →
      (readVoltage (ctor false 0 12 3.3 (constBoard 1024)).1 5 specScenario.2).1.isSome = true) :=
  ctor_defaults false 0 12 3.3 (constBoard 1024) specScenario.2 5 (by decide)


/-! ## Sample consumption -/

/-- C14: with the sample source as an explicit stream, for every sample count
`n` (including `0`) each of `readVoltage(n)`, `getTemperatureC(n)` and
`getTemperatureF(n)` performs exactly `n` reads on the channel's pin and none on
any other pin; the samples read are the next `n` of the pin's stream, in order,
all of them enter the accumulator, and the result depends on the board only
through them. `getTemperatureC(n)` followed by `getTemperatureF(n)` consumes
`2 * n` samples, and the second call reads the second `n`. -/
theorem reads_consume_exactly (s : AD8495) (n : Nat) (b : Board) :
    (readVoltage s n b).2 = advance s._pin n b ∧
    (getTemperatureC s n b).2 = advance s._pin n b ∧
    (getTemperatureF s n b).2 = advance s._pin n b ∧
    nextSamples s._pin n b =
      (List.range n).map (fun i => b.input s._pin (b.reads s._pin + i)) ∧
    (readVoltageLoop s._pin n 0 b).1 = (nextSamples s._pin n b).sum % 4294967296 ∧
    (∀ b1 b2 : Board, nextSamples s._pin n b1 = nextSamples s._pin n b2 →
      (readVoltage s n b1).1 = (readVoltage s n b2).1 ∧
      (getTemperatureC s n b1).1 = (getTemperatureC s n b2).1 ∧
      (getTemperatureF s n b1).1 = (getTemperatureF s n b2).1) ∧
    (getTemperatureF s n (getTemperatureC s n b).2).2 = advance s._pin (2 * n) b ∧
    nextSamples s._pin n (getTemperatureC s n b).2 =
      (List.range n).map (fun i => b.input s._pin (b.reads s._pin + n + i)) := by
  have hC : (getTemperatureC s n b).2 = advance s._pin n b := readVoltage_snd s n b
  refine ⟨readVoltage_snd s n b, hC, readVoltage_snd s n b, nextSamples_eq_map _ _ _, ?_, ?_,
    ?_, ?_⟩
  · rw [readVoltageLoop_fst s._pin n 0 b (by omega), zero_add]
  · intro b1 b2 h
    have hv := readVoltage_congr s n h
    refine ⟨hv, ?_, ?_⟩
    · simp only [getTemperatureC, hv]
    · simp only [getTemperatureF, getTemperatureC, hv]
  · have hF : (getTemperatureF s n (getTemperatureC s n b).2).2 =
        advance s._pin n (getTemperatureC s n b).2 := readVoltage_snd s n _
    rw [hF, hC, advance_advance, two_mul]
  · rw [hC, nextSamples_eq_map]
    simp [advance]


/-! ## Accumulator range and division safety -/

/-- C15: the 32-bit unsigned accumulator of `readVoltage` never wraps when
`n ≤ 65535` and every sample lies in `[0, 2^bits - 1]` with `bits ≤ 16`: the sum
of the `n` samples is below `2^32`, so the accumulated value (computed modulo
`2^32`) is the exact integer sum. -/
theorem accumulator_no_wrap (pin n bits : Nat) (b : Board) (hn : n ≤ 65535)
    (hb : bits ≤ 16)
    (hs : ∀ r ∈ nextSamples pin n b, 0 ≤ r ∧ r ≤ (2 : Int) ^ bits - 1) :
    (nextSamples pin n b).sum < 4294967296 ∧
    (nextSamples pin n b).sum % 4294967296 = (nextSamples pin n b).sum ∧
    (readVoltageLoop pin n 0 b).1 = (nextSamples pin n b).sum := by
  have hpow : (2 : Int) ^ bits ≤ 2 ^ 16 := pow_le_pow_right₀ (by norm_num) hb
  have hle : ∀ r ∈ nextSamples pin n b, r ≤ 65535 := by
    intro r hr
    have := (hs r hr).2
    omega
  have h0 : ∀ r ∈ nextSamples pin n b, 0 ≤ r := fun r hr => (hs r hr).1
  have hsum := sum_le_of_forall_le hle
  have hnn := sum_nonneg_of_forall h0
  rw [nextSamples_length] at hsum
  have hlt : (nextSamples pin n b).sum < 4294967296 := by omega
  exact ⟨hlt, by omega, readVoltageLoop_exact pin n b h0 hlt⟩

/-- Witness for C15: three full-scale samples of a 16-bit converter. -/
theorem accumulator_no_wrap_witness :
    (nextSamples 0 3 (constBoard 65535)).sum < 4294967296 ∧
    (nextSamples 0 3 (constBoard 65535)).sum % 4294967296 =
      (nextSamples 0 3 (constBoard 65535)).sum ∧
    (readVoltageLoop 0 3 0 (constBoard 65535)).1 = (nextSamples 0 3 (constBoard 65535)).sum :=
  accumulator_no_wrap 0 3 16 (constBoard 65535) (by decide) (by decide)
    (by simp [nextSamples, analogRead, constBoard])

/-- C16: division safety. A channel constructed with `bits ≥ 1` has
`resolutionSteps = 2^bits - 1 > 0`, so the divisor of `voltsPerStep` is not
zero, and for `sampleCount ≥ 1` the divisor of the averaging division is not
zero; `bits = 0` gives `resolutionSteps = 0` and `sampleCount = 0` gives a zero
divisor. The undefined branch is reached exactly in these cases: the precision
is undefined iff `bits = 0`, the averaging quotient is undefined iff
`sampleCount = 0`, and `readVoltage` is undefined iff `bits = 0` or
`sampleCount = 0`. -/
theorem division_safety (avr : Bool) (pin bits : Nat) (vref : ℚ) (b0 b : Board) (n : Nat)
    (total : ℚ) :
    (ctor avr pin bits vref b0).1._resolution = (2 : ℚ) ^ bits - 1 ∧
    (1 ≤ bits → 0 < (ctor avr pin bits vref b0).1._resolution) ∧
    (bits = 0 → (ctor avr pin bits vref b0).1._resolution = 0) ∧
    (getPrecision (ctor avr pin bits vref b0).1 = none ↔ bits = 0) ∧
    (1 ≤ n → (n : ℚ) ≠ 0) ∧
    (fdiv total (n : ℚ) = none ↔ n = 0) ∧
    ((readVoltage (ctor avr pin bits vref b0).1 n b).1 = none ↔ bits = 0 ∨ n = 0) := by
  have hp : getPrecision (ctor avr pin bits vref b0).1 = none ↔ bits = 0 := by
    simp only [getPrecision, ctor, fdiv_eq_none_iff]
    constructor
    · intro h
      by_contra hb
      exact resolution_ne_zero (Nat.one_le_iff_ne_zero.mpr hb) h
    · intro h
      subst h
      norm_num
  refine ⟨rfl, ?_, ?_, hp, ?_, ?_, ?_⟩
  · intro hb
    have h : (1 : ℚ) < 2 ^ bits := one_lt_pow₀ (by norm_num) (by omega)
    simp only [ctor]
    linarith
  · intro hb
    subst hb
    simp [ctor]
  · intro hn
    have : n ≠ 0 := by omega
    exact_mod_cast this
  · rw [fdiv_eq_none_iff]
    exact_mod_cast Iff.rfl
  · rw [readVoltage_eq_none_iff, hp]
    exact or_comm


/-! ## Range of the averaged voltage -/

/-- C18: round trip between the temperature conversion and the setpoint
conversion. In every state reachable from construction, for every `n ≥ 1` and
every sample sequence, `getSetpointVoltage(getTemperatureC(n) - temperatureOffset)`
is `V - voltageOffset`, where `V` is what `readVoltage(n)` returns on the same
samples (a defined value exactly when the precision is). -/
theorem setpoint_roundtrip (s : AD8495) (n : Nat) (b : Board) (hs : Reachable s)
    (hn : 1 ≤ n) :
    ((getTemperatureC s n b).1.bind fun T => getSetpointVoltage s (T - s._offset)) =
      (readVoltage s n b).1.map (fun V => V - s._voltage_offset_constant) ∧
    (readVoltage s n b).1.isSome = (getPrecision s).isSome := by
  refine ⟨?_, readVoltage_isSome_eq s hn b⟩
  cases hV : (readVoltage s n b).1 with
  | none => simp [getTemperatureC, hV]
  | some V =>
    rw [getTemperatureC_of_readVoltage s n b hV, Option.some_bind,
      getSetpointVoltage_of_reachable hs, Option.map_some']
    congr 1
    norm_num
    ring

/-- Witness for C18: the recalibrated scenario channel reading five samples. -/
theorem setpoint_roundtrip_witness :
    ((getTemperatureC (setTemperatureOffset (setVoltageOffset specScenario.1 1.25) 3) 5
        specScenario.2).1.bind fun T =>
      getSetpointVoltage (setTemperatureOffset (setVoltageOffset specScenario.1 1.25) 3)
        (T - (setTemperatureOffset (setVoltageOffset specScenario.1 1.25) 3)._offset)) =
      (readVoltage (setTemperatureOffset (setVoltageOffset specScenario.1 1.25) 3) 5
        specScenario.2).1.map
        (fun V =>
          V - (setTemperatureOffset (setVoltageOffset specScenario.1 1.25)
            3)._voltage_offset_constant) ∧
    (readVoltage (setTemperatureOffset (setVoltageOffset specScenario.1 1.25) 3) 5
        specScenario.2).1.isSome =
      (getPrecision (setTemperatureOffset (setVoltageOffset specScenario.1 1.25) 3)).isSome :=
  setpoint_roundtrip (setTemperatureOffset (setVoltageOffset specScenario.1 1.25) 3) 5
    specScenario.2
    (Reachable.temperatureOffset 3
      (Reachable.voltageOffset 1.25 (Reachable.construct false 0 12 3.3 (constBoard 1024))))
    (by decide)

/-- C19 (as amended): monotonicity, with the floating-point arithmetic taken
exactly. For a channel constructed with `bits ≥ 1` and `referenceVoltage > 0`,
in any fixed state reached after construction and for fixed `n ≥ 1`, if two
sample sequences of length `n` have sums `0 ≤ S1 ≤ S2 < 2^32`, then
`readVoltage`, `getTemperatureC` and `getTemperatureF` each return a value on
both sequences, and the value on the first sequence is at most the value on the
second. No strict order is stated. -/
theorem readings_monotone (avr : Bool) (pin bits : Nat) (vref : ℚ) (b0 : Board)
    (ops : List Op) (n : Nat) (b1 b2 : Board) (hb : 1 ≤ bits) (hv : 0 < vref) (hn : 1 ≤ n)
    (h0 : 0 ≤ (nextSamples pin n b1).sum)
    (hle : (nextSamples pin n b1).sum ≤ (nextSamples pin n b2).sum)
    (hlt : (nextSamples pin n b2).sum < 4294967296) :
    ∃ V1 V2 C1 C2 F1 F2 : ℚ,
      (readVoltage (runOps ops (ctor avr pin bits vref b0)).1 n b1).1 = some V1 ∧
      (readVoltage (runOps ops (ctor avr pin bits vref b0)).1 n b2).1 = some V2 ∧
      (getTemperatureC (runOps ops (ctor avr pin bits vref b0)).1 n b1).1 = some C1 ∧
      (getTemperatureC (runOps ops (ctor avr pin bits vref b0)).1 n b2).1 = some C2 ∧
      (getTemperatureF (runOps ops (ctor avr pin bits vref b0)).1 n b1).1 = some F1 ∧
      (getTemperatureF (runOps ops (ctor avr pin bits vref b0)).1 n b2).1 = some F2 ∧
      V1 ≤ V2 ∧ C1 ≤ C2 ∧ F1 ≤ F2 := by
  have hp := getPrecision_runOps_ctor avr pin bits vref b0 ops hb
  have hpin := pin_runOps_ctor avr pin bits vref b0 ops
  have hV1 := readVoltage_of_sum (runOps ops (ctor avr pin bits vref b0)).1 hn b1 hp
    (by rw [hpin]; exact h0) (by rw [hpin]; omega)
  have hV2 := readVoltage_of_sum (runOps ops (ctor avr pin bits vref b0)).1 hn b2 hp
    (by rw [hpin]; omega) (by rw [hpin]; exact hlt)
  rw [hpin] at hV1 hV2
  have hres : (0 : ℚ) < (2 : ℚ) ^ bits - 1 := by
    have h : (1 : ℚ) < 2 ^ bits := one_lt_pow₀ (by norm_num) (by omega)
    linarith
  have hpq : (0 : ℚ) < vref / ((2 : ℚ) ^ bits - 1) := div_pos hv hres
  have hnq : (0 : ℚ) < (n : ℚ) := by exact_mod_cast hn
  have hleq : (((nextSamples pin n b1).sum : Int) : ℚ)
      ≤ (((nextSamples pin n b2).sum : Int) : ℚ) := by
    exact_mod_cast hle
  have hVle : (((nextSamples pin n b1).sum : Int) : ℚ) / n * (vref / ((2 : ℚ) ^ bits - 1)) ≤
      (((nextSamples pin n b2).sum : Int) : ℚ) / n * (vref / ((2 : ℚ) ^ bits - 1)) :=
    mul_le_mul_of_nonneg_right (div_le_div_of_nonneg_right hleq hnq.le) hpq.le
  have h5 : (0 : ℚ) < 0.005 := by norm_num
  have hCle := div_le_div_of_nonneg_right
    (sub_le_sub_right hVle (runOps ops (ctor avr pin bits vref b0)).1._voltage_offset_constant)
    h5.le
  refine ⟨_, _, _, _, _, _, hV1, hV2, getTemperatureC_of_readVoltage _ n b1 hV1,
    getTemperatureC_of_readVoltage _ n b2 hV2, getTemperatureF_of_readVoltage _ n b1 hV1,
    getTemperatureF_of_readVoltage _ n b2 hV2, hVle, ?_, ?_⟩
  · linarith
  · norm_num at hCle ⊢
    linarith

/-- Witness for C19: sample sums 3000 and 3072 on the 12-bit, 3.3 V channel
after a calibration call. -/
theorem readings_monotone_witness :
    ∃ V1 V2 C1 C2 F1 F2 : ℚ,
      (readVoltage (runOps [Op.setTemperatureOffset 2] (ctor false 0 12 3.3 (constBoard 0))).1 3
        (constBoard 1000)).1 = some V1 ∧
      (readVoltage (runOps [Op.setTemperatureOffset 2] (ctor false 0 12 3.3 (constBoard 0))).1 3
        (constBoard 1024)).1 = some V2 ∧
      (getTemperatureC (runOps [Op.setTemperatureOffset 2] (ctor false 0 12 3.3 (constBoard 0))).1
        3 (constBoard 1000)).1 = some C1 ∧
      (getTemperatureC (runOps [Op.setTemperatureOffset 2] (ctor false 0 12 3.3 (constBoard 0))).1
        3 (constBoard 1024)).1 = some C2 ∧
      (getTemperatureF (runOps [Op.setTemperatureOffset 2] (ctor false 0 12 3.3 (constBoard 0))).1
        3 (constBoard 1000)).1 = some F1 ∧
      (getTemperatureF (runOps [Op.setTemperatureOffset 2] (ctor false 0 12 3.3 (constBoard 0))).1
        3 (constBoard 1024)).1 = some F2 ∧
      V1 ≤ V2 ∧ C1 ≤ C2 ∧ F1 ≤ F2 :=
  readings_monotone false 0 12 3.3 (constBoard 0) [Op.setTemperatureOffset 2] 3
    (constBoard 1000) (constBoard 1024) (by decide) (by norm_num) (by decide)
    (by simp [nextSamples, analogRead, constBoard])
    (by simp [nextSamples, analogRead, constBoard])
    (by simp [nextSamples, analogRead, constBoard])

/-- C19 fails as stated: on a 31-bit channel with a 3.3 V reference, default
calibration and `n = 4`, the sequence of four samples `2^29` has sum `2^31` and
the sequence of four samples `2^30` has the larger sum `2^32` (all samples
within `[0, 2^31 - 1]`). The accumulator wraps to `0` on the second, so the
readings there are `0` V, `-500` degrees Celsius and `-868` degrees Fahrenheit,
each well below the reading on the first sequence (above `0.8` V, `-340` and
`-580` degrees). -/
theorem readings_monotone_fails_on_wrap :
    (∀ r ∈ nextSamples wrapScenario.1._pin 4 (constBoard 536870912),
      0 ≤ r ∧ r ≤ (2 : Int) ^ 31 - 1) ∧
    (∀ r ∈ nextSamples wrapScenario.1._pin 4 (constBoard 1073741824),
      0 ≤ r ∧ r ≤ (2 : Int) ^ 31 - 1) ∧
    (nextSamples wrapScenario.1._pin 4 (constBoard 536870912)).sum = 2147483648 ∧
    (nextSamples wrapScenario.1._pin 4 (constBoard 1073741824)).sum = 4294967296 ∧
    ∃ V1 V2 C1 C2 F1 F2 : ℚ,
      (readVoltage wrapScenario.1 4 (constBoard 536870912)).1 = some V1 ∧
      (readVoltage wrapScenario.1 4 (constBoard 1073741824)).1 = some V2 ∧
      (getTemperatureC wrapScenario.1 4 (constBoard 536870912)).1 = some C1 ∧
      (getTemperatureC wrapScenario.1 4 (constBoard 1073741824)).1 = some C2 ∧
      (getTemperatureF wrapScenario.1 4 (constBoard 536870912)).1 = some F1 ∧
      (getTemperatureF wrapScenario.1 4 (constBoard 1073741824)).1 = some F2 ∧
      (V2 = 0 ∧ 0.8 < V1) ∧ (C2 = -500 ∧ -340 < C1) ∧ (F2 = -868 ∧ -580 < F1) := by
  have hV1 : (readVoltage wrapScenario.1 4 (constBoard 536870912)).1 =
      some (8858370048 / 10737418235) := by
    simp [readVoltage, readVoltageLoop, analogRead, wrapScenario, ctor, constBoard, fdiv]
    norm_num
  have hV2 : (readVoltage wrapScenario.1 4 (constBoard 1073741824)).1 = some 0 := by
    simp [readVoltage, readVoltageLoop, analogRead, wrapScenario, ctor, constBoard, fdiv]
    norm_num
  have hvo : wrapScenario.1._voltage_offset_constant = 2.5 := rfl
  have hto : wrapScenario.1._offset = 0.0 := rfl
  refine ⟨?_, ?_, ?_, ?_, _, _, _, _, _, _, hV1, hV2,
    getTemperatureC_of_readVoltage _ 4 _ hV1, getTemperatureC_of_readVoltage _ 4 _ hV2,
    getTemperatureF_of_readVoltage _ 4 _ hV1, getTemperatureF_of_readVoltage _ 4 _ hV2,
    ?_, ?_, ?_⟩
  · simp [nextSamples, analogRead, wrapScenario, ctor, constBoard]
  · simp [nextSamples, analogRead, wrapScenario, ctor, constBoard]
  · simp [nextSamples, analogRead, wrapScenario, ctor, constBoard]
  · simp [nextSamples, analogRead, wrapScenario, ctor, constBoard]
  · norm_num
  · rw [hvo, hto]
    norm_num
  · rw [hvo, hto]
    norm_num

end AD8495
